import Mathlib

/-!
Verification of the `erc20` CosmWasm contract (`src/erc20/src/contract.rs`)
against its natural-language specification.

The contract is shallowly embedded: the flat byte-oriented key-value store is
an association list from byte-string keys to byte-string values, 128-bit
machine integers are `Nat` with explicit `% 2 ^ 128` at every point where the
Rust code can wrap, and fallible code returns `Except`.  The key layout and
the decimal `Amount` codec live in `state.rs`, which is not part of the
sources; those definitions are modelled from the specification (sections 4.1,
4.2 and 6) and are marked as such.
-/

set_option maxHeartbeats 1000000

namespace Erc20

/-- A storage byte. -/
abbrev Byte := Fin 256

/-- Errors surfaced by the contract.  `contractErr` and `dynContractErr`
mirror `cosmwasm::errors::contract_err` / `dyn_contract_err`;
`canonicalErr` stands for a failure of the external address canonicalizer;
`parseErr` for a failed decimal-amount parse; `runtimePanic` for a Rust
panic (out-of-bounds slice index). -/
inductive Err where
  | contractErr (msg : String)
  | dynContractErr (msg : String)
  | canonicalErr (msg : String)
  | parseErr (msg : String)
  | runtimePanic (msg : String)
deriving DecidableEq, Repr

/-! ## Amount codec -/

/-- Big-endian bytes of `n`, `k` bytes wide: the semantics of Rust's
`u128::to_be_bytes` when `k = 16`. -/
def natToBeBytes : Nat → Nat → List Byte
  | _, 0 => []
  | n, k + 1 => natToBeBytes (n / 256) k ++ [⟨n % 256, Nat.mod_lt _ (by norm_num)⟩]

/-- `u128::to_be_bytes`: the 16-byte big-endian encoding of a `u128`. -/
def to_be_bytes (n : Nat) : List Byte := natToBeBytes n 16

/-- `u128::from_be_bytes`: big-endian byte string to integer. -/
def from_be_bytes (l : List Byte) : Nat := l.foldl (fun acc b => acc * 256 + b.val) 0

/-- `bytes_to_u128` from `contract.rs`.  The Rust body indexes `data[0..16]`:
this panics when fewer than 16 bytes are present, and silently decodes the
first 16 bytes when more are present; the `contract_err("Corrupted data
found. 16 byte expected.")` branch is unreachable because `try_into` from a
16-byte slice to `[u8; 16]` always succeeds. -/
def bytes_to_u128 (data : List Byte) : Except Err Nat :=
  if data.length < 16 then
    .error (.runtimePanic "range end index 16 out of range")
  else
    .ok (from_be_bytes (data.take 16))

@[simp] theorem natToBeBytes_length (n k : Nat) : (natToBeBytes n k).length = k := by
  induction k generalizing n with
  | zero => rfl
  | succ k ih => simp [natToBeBytes, ih]

theorem from_be_bytes_natToBeBytes (n k : Nat) :
    from_be_bytes (natToBeBytes n k) = n % 256 ^ k := by
  induction k generalizing n with
  | zero => simp [natToBeBytes, from_be_bytes, Nat.mod_one]
  | succ k ih =>
    have hsplit : n % 256 ^ (k + 1) = 256 * (n / 256 % 256 ^ k) + n % 256 := by
      conv_lhs => rw [pow_succ, mul_comm (256 ^ k) 256, Nat.mod_mul]
      ring
    simp only [natToBeBytes, from_be_bytes, List.foldl_append, List.foldl_cons,
      List.foldl_nil]
    rw [show (List.foldl (fun acc b => acc * 256 + b.val) 0 (natToBeBytes (n / 256) k))
          = from_be_bytes (natToBeBytes (n / 256) k) from rfl, ih, hsplit]
    ring

theorem from_be_bytes_lt (l : List Byte) : from_be_bytes l < 256 ^ l.length := by
  suffices h : ∀ acc, List.foldl (fun acc b => acc * 256 + b.val) acc l
      < (acc + 1) * 256 ^ l.length by
    have := h 0
    simpa [from_be_bytes] using this
  induction l with
  | nil => intro acc; simp
  | cons b t ih =>
    intro acc
    have hb : b.val < 256 := b.isLt
    calc List.foldl (fun acc b => acc * 256 + b.val) (acc * 256 + b.val) t
        < (acc * 256 + b.val + 1) * 256 ^ t.length := ih _
      _ ≤ (acc + 1) * 256 ^ (t.length + 1) := by
          have : acc * 256 + b.val + 1 ≤ (acc + 1) * 256 := by omega
          calc (acc * 256 + b.val + 1) * 256 ^ t.length
              ≤ ((acc + 1) * 256) * 256 ^ t.length :=
                Nat.mul_le_mul_right _ this
            _ = (acc + 1) * 256 ^ (t.length + 1) := by ring
      _ = (acc + 1) * 256 ^ (b :: t).length := by simp

theorem to_be_bytes_length (n : Nat) : (to_be_bytes n).length = 16 := by
  simp [to_be_bytes]

theorem from_be_bytes_to_be_bytes (n : Nat) :
    from_be_bytes (to_be_bytes n) = n % 2 ^ 128 := by
  have h : (256 : Nat) ^ 16 = 2 ^ 128 := by norm_num
  rw [to_be_bytes, from_be_bytes_natToBeBytes, h]

theorem bytes_to_u128_to_be_bytes (n : Nat) :
    bytes_to_u128 (to_be_bytes n) = .ok (n % 2 ^ 128) := by
  have hlen : (to_be_bytes n).length = 16 := to_be_bytes_length n
  have htake : (to_be_bytes n).take 16 = to_be_bytes n :=
    List.take_of_length_le (le_of_eq hlen)
  simp [bytes_to_u128, hlen, htake, from_be_bytes_to_be_bytes]

theorem bytes_to_u128_ok_lt {data : List Byte} {n : Nat}
    (h : bytes_to_u128 data = .ok n) : n < 2 ^ 128 := by
  by_cases hlen : data.length < 16
  · simp [bytes_to_u128, hlen] at h
  · simp [bytes_to_u128, hlen] at h
    subst h
    have h1 : (data.take 16).length ≤ 16 := by
      simp [List.length_take]
    calc from_be_bytes (data.take 16) < 256 ^ (data.take 16).length :=
          from_be_bytes_lt _
      _ ≤ 256 ^ 16 := Nat.pow_le_pow_right (by norm_num) h1
      _ = 2 ^ 128 := by norm_num

/-! ## The flat key-value store

The host hands the contract a byte-oriented key-value store with `get`/`set`.
It is modelled as an association list; `set` replaces the binding of an
existing key in place and appends a fresh binding at the end. -/

/-- The host's flat byte-oriented key-value store. -/
abbrev Store := List (List Byte × List Byte)

/-- `Storage::get`. -/
def get : Store → List Byte → Option (List Byte)
  | [], _ => none
  | kv :: rest, k => if kv.1 = k then some kv.2 else get rest k

/-- `Storage::set`. -/
def set : Store → List Byte → List Byte → Store
  | [], k, v => [(k, v)]
  | kv :: rest, k, v => if kv.1 = k then (k, v) :: rest else kv :: set rest k v

/-- The empty store handed to `init` at genesis. -/
def emptyStore : Store := []

@[simp] theorem get_set_self (s : Store) (k v : List Byte) :
    get (set s k v) k = some v := by
  induction s with
  | nil => simp [get, set]
  | cons kv rest ih =>
    by_cases h : kv.1 = k
    · simp [get, set, h]
    · simp [get, set, h, ih]

theorem get_set_ne (s : Store) {k k2 : List Byte} (v : List Byte) (h : k ≠ k2) :
    get (set s k v) k2 = get s k2 := by
  induction s with
  | nil => simp [get, set, h]
  | cons kv rest ih =>
    by_cases hk : kv.1 = k
    · simp [get, set, hk, h]
    · by_cases hk2 : kv.1 = k2
      · simp [get, set, hk, hk2, Ne.symm h]
      · simp [get, set, hk, hk2, ih]

theorem mem_set {s : Store} {k v : List Byte} {kv : List Byte × List Byte}
    (h : kv ∈ set s k v) : kv = (k, v) ∨ kv ∈ s := by
  induction s with
  | nil => simpa [set] using h
  | cons hd rest ih =>
    by_cases hk : hd.1 = k
    · simp only [set, if_pos hk, List.mem_cons] at h
      rcases h with h | h
      · exact .inl h
      · exact .inr (List.mem_cons_of_mem _ h)
    · simp only [set, if_neg hk, List.mem_cons] at h
      rcases h with h | h
      · exact .inr (by simp [h])
      · rcases ih h with h | h
        · exact .inl h
        · exact .inr (List.mem_cons_of_mem _ h)

/-! ## Key namespacing

`state.rs` is not among the sources.  Modelled from the spec (§4.2, §6):
balances live under the byte prefix `"balance"`, allowances under
`"allowance"` with the owner segment nested before the spender segment, and
the metadata under the well-known keys `"name"`, `"symbol"`, `"decimals"`
and `"total_supply"`. -/

/-- Modelled from the spec: `PREFIX_BALANCES`, the bytes of `"balance"`
(missing `state.rs`). -/
def PREFIX_BALANCES : List Byte := [98, 97, 108, 97, 110, 99, 101]

/-- Modelled from the spec: `PREFIX_ALLOWANCES`, the bytes of `"allowance"`
(missing `state.rs`). -/
def PREFIX_ALLOWANCES : List Byte := [97, 108, 108, 111, 119, 97, 110, 99, 101]

/-- Modelled from the spec: the well-known key `"name"` (missing `state.rs`). -/
def KEY_NAME : List Byte := [110, 97, 109, 101]

/-- Modelled from the spec: the well-known key `"symbol"` (missing `state.rs`). -/
def KEY_SYMBOL : List Byte := [115, 121, 109, 98, 111, 108]

/-- Modelled from the spec: the well-known key `"decimals"` (missing `state.rs`). -/
def KEY_DECIMALS : List Byte := [100, 101, 99, 105, 109, 97, 108, 115]

/-- Modelled from the spec: the well-known key `"total_supply"` (missing `state.rs`). -/
def KEY_TOTAL_SUPPLY : List Byte :=
  [116, 111, 116, 97, 108, 95, 115, 117, 112, 112, 108, 121]

/-- The storage key of an account's balance: `"balance" ‖ account_bytes`. -/
def balanceKey (addr : List Byte) : List Byte := PREFIX_BALANCES ++ addr

/-- The storage key of an `(owner, spender)` allowance:
`"allowance" ‖ owner_bytes ‖ spender_bytes`. -/
def allowanceKey (owner spender : List Byte) : List Byte :=
  PREFIX_ALLOWANCES ++ owner ++ spender

/-- Does a key lie in the balance namespace? -/
def isBalanceKey (k : List Byte) : Bool := PREFIX_BALANCES.isPrefixOf k

theorem balanceKey_inj {a b : List Byte} (h : balanceKey a = balanceKey b) :
    a = b := by
  simpa [balanceKey] using h

theorem isPrefixOf_append_self (l r : List Byte) : l.isPrefixOf (l ++ r) = true := by
  induction l with
  | nil => simp [List.isPrefixOf]
  | cons a t ih => simp [List.isPrefixOf, ih]

@[simp] theorem isBalanceKey_balanceKey (a : List Byte) :
    isBalanceKey (balanceKey a) = true := by
  simp [isBalanceKey, balanceKey, isPrefixOf_append_self]

@[simp] theorem isBalanceKey_allowanceKey (o sp : List Byte) :
    isBalanceKey (allowanceKey o sp) = false := by
  simp [isBalanceKey, allowanceKey, PREFIX_ALLOWANCES, PREFIX_BALANCES,
    List.isPrefixOf]

@[simp] theorem isBalanceKey_total_supply : isBalanceKey KEY_TOTAL_SUPPLY = false := by
  decide

@[simp] theorem isBalanceKey_name : isBalanceKey KEY_NAME = false := by decide

@[simp] theorem isBalanceKey_symbol : isBalanceKey KEY_SYMBOL = false := by decide

@[simp] theorem isBalanceKey_decimals : isBalanceKey KEY_DECIMALS = false := by decide

theorem ne_balanceKey_of_not_isBalanceKey {k : List Byte}
    (h : isBalanceKey k = false) (a : List Byte) : k ≠ balanceKey a := by
  intro hk
  rw [hk, isBalanceKey_balanceKey] at h
  simp at h

theorem allowanceKey_ne_balanceKey (o sp a : List Byte) :
    allowanceKey o sp ≠ balanceKey a :=
  ne_balanceKey_of_not_isBalanceKey (isBalanceKey_allowanceKey o sp) a

theorem total_supply_ne_balanceKey (a : List Byte) :
    KEY_TOTAL_SUPPLY ≠ balanceKey a :=
  ne_balanceKey_of_not_isBalanceKey isBalanceKey_total_supply a

theorem allowanceKey_ne_total_supply (o sp : List Byte) :
    allowanceKey o sp ≠ KEY_TOTAL_SUPPLY := by
  simp [allowanceKey, PREFIX_ALLOWANCES, KEY_TOTAL_SUPPLY]

/-! ## Reads and writes of 128-bit amounts -/

/-- `read_u128` from `contract.rs`: absent key reads as zero, a present value
is decoded by `bytes_to_u128`. -/
def read_u128 (s : Store) (key : List Byte) : Except Err Nat :=
  match get s key with
  | some data => bytes_to_u128 data
  | none => .ok 0

/-- `read_balance` from `contract.rs`. -/
def read_balance (s : Store) (owner : List Byte) : Except Err Nat :=
  read_u128 s (balanceKey owner)

/-- `read_allowance` from `contract.rs`. -/
def read_allowance (s : Store) (owner spender : List Byte) : Except Err Nat :=
  read_u128 s (allowanceKey owner spender)

/-- `write_allowance` from `contract.rs`. -/
def write_allowance (s : Store) (owner spender : List Byte) (amount : Nat) : Store :=
  set s (allowanceKey owner spender) (to_be_bytes amount)

theorem read_u128_ok_lt {s : Store} {key : List Byte} {n : Nat}
    (h : read_u128 s key = .ok n) : n < 2 ^ 128 := by
  rw [read_u128] at h
  cases hg : get s key with
  | some data =>
    rw [hg] at h
    exact bytes_to_u128_ok_lt h
  | none =>
    rw [hg] at h
    cases h
    positivity

theorem read_u128_set_to_be_bytes (s : Store) (k : List Byte) {n : Nat}
    (hn : n < 2 ^ 128) : read_u128 (set s k (to_be_bytes n)) k = .ok n := by
  have hn2 : n % 2 ^ 128 = n := Nat.mod_eq_of_lt hn
  simp only [read_u128, get_set_self, bytes_to_u128_to_be_bytes, hn2]

theorem read_u128_set_ne (s : Store) {k k2 : List Byte} (v : List Byte)
    (h : k ≠ k2) : read_u128 (set s k v) k2 = read_u128 s k2 := by
  rw [read_u128, read_u128, get_set_ne s v h]

/-! ## The decimal amount type

`Amount` and its parse live in `state.rs`, which is missing from the sources. -/

/-- Modelled from the spec: parsing a decimal amount string into a 128-bit
unsigned integer, failing with a *Parse Error* on malformed numerals or
out-of-range values (missing `state.rs`, spec §4.3/§4.4). -/
def parseAmount (a : String) : Except Err Nat :=
  if a.toList ≠ [] ∧ a.toList.all Char.isDigit then
    if a.toList.foldl (fun acc c => acc * 10 + (c.toNat - 48)) 0 < 2 ^ 128 then
      .ok (a.toList.foldl (fun acc c => acc * 10 + (c.toNat - 48)) 0)
    else .error (.parseErr "number too large to fit in target type")
  else .error (.parseErr "invalid digit found in string")

theorem parseAmount_ok_lt {a : String} {n : Nat}
    (h : parseAmount a = .ok n) : n < 2 ^ 128 := by
  rw [parseAmount] at h
  split at h
  · split at h
    · cases h
      assumption
    · cases h
  · cases h

/-- Modelled from the spec: `Amount::from(u128)` renders the integer as its
decimal string (missing `state.rs`, spec §4.7). -/
def amountFrom (n : Nat) : String := toString n

/-! ## Messages and responses -/

/-- One row of `InitMsg::initial_balances` (`msg.rs`). -/
structure InitialBalance where
  address : String
  amount : String
deriving DecidableEq, Repr

/-- `InitMsg` (`msg.rs`); `name` and `symbol` carry the UTF-8 bytes the Rust
code validates via `as_bytes`. -/
structure InitMsg where
  name : List Byte
  symbol : List Byte
  decimals : Nat
  initial_balances : List InitialBalance

/-- `Response` (`cosmwasm::types`), as built by the contract. -/
structure Response where
  messages : List Unit
  log : Option String
  data : Option (List Byte)
deriving DecidableEq, Repr

/-- `Response::default()`. -/
def Response.default : Response := { messages := [], log := none, data := none }

/-- `QueryMsg` (`msg.rs`). -/
inductive QueryMsg where
  | balance (address : String)
  | allowance (owner spender : String)

/-- The decoded query response: `BalanceResponse` or `AllowanceResponse`
(`msg.rs`), each wrapping a decimal amount string. -/
inductive QueryAnswer where
  | balanceResponse (balance : String)
  | allowanceResponse (allowance : String)
deriving DecidableEq, Repr

/-- The external address canonicalizer (`Api::canonical_address`),
modelled as an arbitrary fallible function from human addresses to
canonical byte strings. -/
abbrev Api := String → Except Err (List Byte)

/-! ## The contract entry points (`contract.rs`) -/

/-- `is_valid_name` from `contract.rs`. -/
def is_valid_name (name : List Byte) : Bool :=
  if name.length < 3 ∨ name.length > 30 then false else true

/-- `is_valid_symbol` from `contract.rs`. -/
def is_valid_symbol (symbol : List Byte) : Bool :=
  if symbol.length < 3 ∨ symbol.length > 6 then false
  else symbol.all fun b => decide (65 ≤ b.val ∧ b.val ≤ 90)

/-- `perform_transfer` from `contract.rs`.  Returns the store as left after
the call together with the call's outcome; on the insufficient-funds error no
write has happened, and the recipient's increment wraps at `2 ^ 128` exactly
as the unchecked `u128` addition does. -/
def perform_transfer (s : Store) (fromAddr toAddr : List Byte) (amount : Nat) :
    Store × Except Err Unit :=
  match read_u128 s (balanceKey fromAddr) with
  | .error e => (s, .error e)
  | .ok from_balance =>
    if from_balance < amount then
      (s, .error (.dynContractErr ("Insufficient funds: balance=" ++
        toString from_balance ++ ", required=" ++ toString amount)))
    else
      let s1 := set s (balanceKey fromAddr) (to_be_bytes (from_balance - amount))
      match read_u128 s1 (balanceKey toAddr) with
      | .error e => (s1, .error e)
      | .ok to_balance =>
        (set s1 (balanceKey toAddr) (to_be_bytes ((to_balance + amount) % 2 ^ 128)),
         .ok ())

/-- `try_transfer` from `contract.rs`; `signer` is
`params.message.signer`, already canonical. -/
def try_transfer (api : Api) (s : Store) (signer : List Byte)
    (recipient : String) (amount : String) : Store × Except Err Response :=
  match api recipient with
  | .error e => (s, .error e)
  | .ok recipient_raw =>
  match parseAmount amount with
  | .error e => (s, .error e)
  | .ok amount_raw =>
  match perform_transfer s signer recipient_raw amount_raw with
  | (s2, .error e) => (s2, .error e)
  | (s2, .ok _) =>
    (s2, .ok { messages := [], log := some "transfer successful", data := none })

/-- `try_transfer_from` from `contract.rs`; `signer` is the spender.  The
decremented allowance is persisted *before* the balance transfer is
attempted, so a failing transfer leaves the allowance already reduced. -/
def try_transfer_from (api : Api) (s : Store) (signer : List Byte)
    (owner recipient : String) (amount : String) : Store × Except Err Response :=
  match api owner with
  | .error e => (s, .error e)
  | .ok owner_raw =>
  match api recipient with
  | .error e => (s, .error e)
  | .ok recipient_raw =>
  match parseAmount amount with
  | .error e => (s, .error e)
  | .ok amount_raw =>
  match read_allowance s owner_raw signer with
  | .error e => (s, .error e)
  | .ok allowance =>
  if allowance < amount_raw then
    (s, .error (.dynContractErr ("Insufficient allowance: allowance=" ++
      toString allowance ++ ", required=" ++ toString amount_raw)))
  else
    let s1 := write_allowance s owner_raw signer (allowance - amount_raw)
    match perform_transfer s1 owner_raw recipient_raw amount_raw with
    | (s2, .error e) => (s2, .error e)
    | (s2, .ok _) =>
      (s2, .ok { messages := [], log := some "transfer from successful",
                 data := none })

/-- `try_approve` from `contract.rs`; `signer` is the owner. -/
def try_approve (api : Api) (s : Store) (signer : List Byte)
    (spender : String) (amount : String) : Store × Except Err Response :=
  match api spender with
  | .error e => (s, .error e)
  | .ok spender_raw =>
  match parseAmount amount with
  | .error e => (s, .error e)
  | .ok amount_raw =>
    (write_allowance s signer spender_raw amount_raw,
     .ok { messages := [], log := some "approve successful", data := none })

/-- The initial-balance loop of `init`: canonicalize, parse, store each
balance, accumulating the running total with the unchecked (wrapping)
`u128` addition.  An error aborts the loop with the writes so far kept,
exactly as the Rust `for` loop with `?` does. -/
def initLoop (api : Api) : List InitialBalance → Store → Nat → Store × Except Err Nat
  | [], s, total => (s, .ok total)
  | row :: rest, s, total =>
    match api row.address with
    | .error e => (s, .error e)
    | .ok raw_address =>
    match parseAmount row.amount with
    | .error e => (s, .error e)
    | .ok amount_raw =>
      initLoop api rest (set s (balanceKey raw_address) (to_be_bytes amount_raw))
        ((total + amount_raw) % 2 ^ 128)

/-- `init` from `contract.rs`.  Balances are written before the
name/symbol/decimals validation; the persistence of `Constants` and
`Total Supply` under the well-known keys is modelled from the spec (§4.2,
§6), since `state.rs` is missing. -/
def init (api : Api) (s : Store) (msg : InitMsg) : Store × Except Err Response :=
  match initLoop api msg.initial_balances s 0 with
  | (s1, .error e) => (s1, .error e)
  | (s1, .ok total) =>
    if ¬ is_valid_name msg.name then
      (s1, .error (.contractErr "Name is not in the expected format (3-30 UTF-8 bytes)"))
    else if ¬ is_valid_symbol msg.symbol then
      (s1, .error (.contractErr "Ticker symbol is not in expected format [A-Z]{3,6}"))
    else if msg.decimals > 18 then
      (s1, .error (.contractErr "Decimals must not exceed 18"))
    else
      let s2 := set s1 KEY_NAME msg.name
      let s3 := set s2 KEY_SYMBOL msg.symbol
      let s4 := set s3 KEY_DECIMALS [⟨msg.decimals % 256, Nat.mod_lt _ (by norm_num)⟩]
      let s5 := set s4 KEY_TOTAL_SUPPLY (to_be_bytes total)
      (s5, .ok Response.default)

/-- `query` from `contract.rs`: read-only, returns the decoded response in
place of its serialized bytes (serialization is the external collaborator of
spec §6). -/
def query (api : Api) (s : Store) (msg : QueryMsg) : Except Err QueryAnswer :=
  match msg with
  | .balance address =>
    match api address with
    | .error e => .error e
    | .ok address_key =>
    match read_balance s address_key with
    | .error e => .error e
    | .ok balance => .ok (.balanceResponse (amountFrom balance))
  | .allowance owner spender =>
    match api owner with
    | .error e => .error e
    | .ok owner_key =>
    match api spender with
    | .error e => .error e
    | .ok spender_key =>
    match read_allowance s owner_key spender_key with
    | .error e => .error e
    | .ok allowance => .ok (.allowanceResponse (amountFrom allowance))

/-! ## Characterization of `perform_transfer` -/

theorem perform_transfer_insufficient (s : Store) (f t : List Byte) (x bf : Nat)
    (hbf : read_u128 s (balanceKey f) = .ok bf) (hlt : bf < x) :
    perform_transfer s f t x =
      (s, .error (.dynContractErr ("Insufficient funds: balance=" ++
        toString bf ++ ", required=" ++ toString x))) := by
  unfold perform_transfer
  rw [hbf]
  simp [hlt]

theorem perform_transfer_ok_distinct (s : Store) (f t : List Byte) (x bf bt : Nat)
    (hft : f ≠ t)
    (hbf : read_u128 s (balanceKey f) = .ok bf) (hx : x ≤ bf)
    (hbt : read_u128 s (balanceKey t) = .ok bt) :
    perform_transfer s f t x =
      (set (set s (balanceKey f) (to_be_bytes (bf - x))) (balanceKey t)
        (to_be_bytes ((bt + x) % 2 ^ 128)), .ok ()) := by
  have hkey : balanceKey f ≠ balanceKey t := fun h => hft (balanceKey_inj h)
  have h1 : read_u128 (set s (balanceKey f) (to_be_bytes (bf - x)))
      (balanceKey t) = .ok bt := by
    rw [read_u128_set_ne _ _ hkey]
    exact hbt
  unfold perform_transfer
  rw [hbf]
  simp [Nat.not_lt.mpr hx, h1]

theorem perform_transfer_ok_self (s : Store) (f : List Byte) (x bf : Nat)
    (hbf : read_u128 s (balanceKey f) = .ok bf) (hx : x ≤ bf) :
    perform_transfer s f f x =
      (set (set s (balanceKey f) (to_be_bytes (bf - x))) (balanceKey f)
        (to_be_bytes bf), .ok ()) := by
  have hlt : bf < 2 ^ 128 := read_u128_ok_lt hbf
  have hbfx : bf - x < 2 ^ 128 := by omega
  have h1 : read_u128 (set s (balanceKey f) (to_be_bytes (bf - x)))
      (balanceKey f) = .ok (bf - x) := read_u128_set_to_be_bytes _ _ hbfx
  have h2 : (bf - x + x) % 2 ^ 128 = bf := by
    rw [Nat.sub_add_cancel hx, Nat.mod_eq_of_lt hlt]
  unfold perform_transfer
  rw [hbf]
  dsimp only
  rw [if_neg (Nat.not_lt.mpr hx), h1]
  dsimp only
  rw [h2]

/-! ## Concrete inputs used by witnesses and counterexamples -/

/-- A concrete canonicalizer for witnesses: the ASCII bytes of the address. -/
def strBytes (h : String) : List Byte :=
  h.toList.map fun c => ⟨c.toNat % 256, Nat.mod_lt _ (by norm_num)⟩

/-- A concrete `Api` that always succeeds. -/
def okApi : Api := fun h => .ok (strBytes h)

/-- A small concrete store: balances `A = 100`, `B = 30`, `O = 50` and
allowance `(O, S) = 20`. -/
def wStore : Store :=
  [(balanceKey (strBytes "A"), to_be_bytes 100),
   (balanceKey (strBytes "B"), to_be_bytes 30),
   (balanceKey (strBytes "O"), to_be_bytes 50),
   (allowanceKey (strBytes "O") (strBytes "S"), to_be_bytes 20)]

/-! ## Claim C7: wrong-length decode (code bug) -/

/-- **C7** (code bug): the claim — and the code's own comment "Errors if data
found that is not 16 bytes" — say that `bytes_to_u128` rejects every input
whose length is not 16 with the *Corrupted Data* error.  The code instead
slices `data[0..16]`: on a 17-byte input it silently succeeds, decoding the
first 16 bytes, and on a 15-byte input it panics rather than returning the
error; the `Corrupted data` branch is unreachable. -/
theorem bytes_to_u128_wrong_length_behavior :
    bytes_to_u128 (List.replicate 17 (0 : Byte)) = .ok 0 ∧
    bytes_to_u128 (List.replicate 15 (0 : Byte)) =
      .error (.runtimePanic "range end index 16 out of range") ∧
    (∀ msg, bytes_to_u128 (List.replicate 17 (0 : Byte)) ≠
      .error (.contractErr msg)) := by
  refine ⟨rfl, rfl, fun msg h => ?_⟩
  have h17 : bytes_to_u128 (List.replicate 17 (0 : Byte)) = Except.ok 0 := rfl
  exact Except.noConfusion (h17.symm.trans h)

/-! ## Claim C8: codec round-trip -/

/-- **C8** (confirmed): for every 128-bit unsigned integer `n`, decoding the
16-byte big-endian encoding of `n` (the encoding written by every ledger
amount write) yields `n` again. -/
theorem codec_round_trip (n : Nat) (h : n < 2 ^ 128) :
    bytes_to_u128 (to_be_bytes n) = .ok n := by
  rw [bytes_to_u128_to_be_bytes, Nat.mod_eq_of_lt h]

/-- Witness for C8 at `n = 123456789`. -/
theorem codec_round_trip_witness :
    123456789 < 2 ^ 128 ∧
    bytes_to_u128 (to_be_bytes 123456789) = .ok 123456789 :=
  ⟨by norm_num, codec_round_trip 123456789 (by norm_num)⟩

/-! ## Claim C3: transfer failure is a no-op -/

/-- **C3** (confirmed): when the sender's balance is below the requested
amount, `try_transfer` fails with the *Insufficient Funds* error whose
message carries both the available balance and the required amount, and
returns the store exactly as it was — every balance, allowance and metadata
entry included. -/
theorem transfer_failure_noop (api : Api) (s : Store) (signer : List Byte)
    (recipient amtStr : String) (r : List Byte) (x bA : Nat)
    (hapi : api recipient = .ok r) (hparse : parseAmount amtStr = .ok x)
    (hbal : read_balance s signer = .ok bA) (hlt : bA < x) :
    try_transfer api s signer recipient amtStr =
      (s, .error (.dynContractErr ("Insufficient funds: balance=" ++
        toString bA ++ ", required=" ++ toString x))) := by
  have hp := perform_transfer_insufficient s signer r x bA hbal hlt
  simp [try_transfer, hapi, hparse, hp]

/-- Witness for C3: account `A` holds 100 and cannot send 200. -/
theorem transfer_failure_noop_witness :
    okApi "B" = .ok (strBytes "B") ∧
    parseAmount "200" = .ok 200 ∧
    read_balance wStore (strBytes "A") = .ok 100 ∧
    100 < 200 ∧
    try_transfer okApi wStore (strBytes "A") "B" "200" =
      (wStore, .error (.dynContractErr
        "Insufficient funds: balance=100, required=200")) :=
  ⟨rfl, rfl, rfl, by norm_num,
    transfer_failure_noop okApi wStore (strBytes "A") "B" "200" (strBytes "B")
      200 100 rfl rfl rfl (by norm_num)⟩

/-! ## Claim C6: approve overwrites, not accumulates -/

/-- **C6** (confirmed): `try_approve` succeeds whenever the spender address
canonicalizes and the amount string parses, on any store state, and a second
approval overwrites the stored `(owner, spender)` allowance with its own
amount `b`, not `a + b`. -/
theorem approve_overwrites (api : Api) (s : Store) (signer : List Byte)
    (spender aStr bStr : String) (sp : List Byte) (a b : Nat)
    (hapi : api spender = .ok sp) (hpa : parseAmount aStr = .ok a)
    (hpb : parseAmount bStr = .ok b) :
    ∃ s1 r1 s2 r2,
      try_approve api s signer spender aStr = (s1, .ok r1) ∧
      try_approve api s1 signer spender bStr = (s2, .ok r2) ∧
      read_allowance s2 signer sp = .ok b := by
  have hb : b < 2 ^ 128 := parseAmount_ok_lt hpb
  refine ⟨write_allowance s signer sp a, ⟨[], some "approve successful", none⟩,
    write_allowance (write_allowance s signer sp a) signer sp b,
    ⟨[], some "approve successful", none⟩, ?_, ?_, ?_⟩
  · simp [try_approve, hapi, hpa]
  · simp [try_approve, hapi, hpb]
  · rw [read_allowance, write_allowance, read_u128_set_to_be_bytes _ _ hb]

/-- Witness for C6: approving 7 then 9 for the same spender leaves 9. -/
theorem approve_overwrites_witness :
    okApi "S" = .ok (strBytes "S") ∧
    parseAmount "7" = .ok 7 ∧
    parseAmount "9" = .ok 9 ∧
    (∃ s1 r1 s2 r2,
      try_approve okApi wStore (strBytes "O") "S" "7" = (s1, .ok r1) ∧
      try_approve okApi s1 (strBytes "O") "S" "9" = (s2, .ok r2) ∧
      read_allowance s2 (strBytes "O") (strBytes "S") = .ok 9) :=
  ⟨rfl, rfl, rfl,
    approve_overwrites okApi wStore (strBytes "O") "S" "7" "9" (strBytes "S")
      7 9 rfl rfl rfl⟩

/-! ## Claim C10: self-transfer preserves every balance -/

/-- **C10** (confirmed): a transfer from an account to itself, for any amount
covered by its balance, succeeds and leaves that account's balance — and
every other account's balance — exactly as it was: the decrement is written
first and read back before the increment. -/
theorem self_transfer_preserves (api : Api) (s : Store) (signer : List Byte)
    (recipient amtStr : String) (x b : Nat)
    (hapi : api recipient = .ok signer) (hparse : parseAmount amtStr = .ok x)
    (hbal : read_balance s signer = .ok b) (hx : x ≤ b) :
    ∃ s2 resp,
      try_transfer api s signer recipient amtStr = (s2, .ok resp) ∧
      ∀ c, read_balance s2 c = read_balance s c := by
  have hp := perform_transfer_ok_self s signer x b hbal hx
  have hlt : b < 2 ^ 128 := read_u128_ok_lt hbal
  refine ⟨set (set s (balanceKey signer) (to_be_bytes (b - x))) (balanceKey signer)
      (to_be_bytes b), ⟨[], some "transfer successful", none⟩,
    by simp [try_transfer, hapi, hparse, hp], fun c => ?_⟩
  by_cases hc : c = signer
  · subst hc
    rw [read_balance, read_u128_set_to_be_bytes _ _ hlt, hbal]
  · have hkey : balanceKey signer ≠ balanceKey c :=
      fun h => hc (balanceKey_inj h).symm
    rw [read_balance, read_u128_set_ne _ _ hkey, read_u128_set_ne _ _ hkey]
    rfl

/-- Witness for C10: account `A` (balance 100) transfers 40 to itself. -/
theorem self_transfer_preserves_witness :
    okApi "A" = .ok (strBytes "A") ∧
    parseAmount "40" = .ok 40 ∧
    read_balance wStore (strBytes "A") = .ok 100 ∧
    40 ≤ 100 ∧
    (∃ s2 resp,
      try_transfer okApi wStore (strBytes "A") "A" "40" = (s2, .ok resp) ∧
      ∀ c, read_balance s2 c = read_balance wStore c) :=
  ⟨rfl, rfl, rfl, by norm_num,
    self_transfer_preserves okApi wStore (strBytes "A") "A" "40" 40 100
      rfl rfl rfl (by norm_num)⟩

/-! ## Claim C2: transfer correctness -/

/-- Two accounts holding `2 ^ 127` each: the recipient's increment overflows. -/
def ovStore : Store :=
  [(balanceKey (strBytes "A"), to_be_bytes (2 ^ 127)),
   (balanceKey (strBytes "B"), to_be_bytes (2 ^ 127))]

/-- **C2** (counterexample): the claim promises that a covered transfer
increments the recipient's balance by exactly `x`.  With `balance(A) =
balance(B) = 2 ^ 127` and `x = 2 ^ 127`, the transfer succeeds but `B`'s
balance becomes `0`, not `2 ^ 127 + 2 ^ 127`: the unchecked `u128` addition
wraps (the latent defect the spec flags in §4.4). -/
theorem transfer_correctness_counterexample :
    read_balance ovStore (strBytes "A") = .ok (2 ^ 127) ∧
    read_balance ovStore (strBytes "B") = .ok (2 ^ 127) ∧
    (try_transfer okApi ovStore (strBytes "A") "B"
        "170141183460469231731687303715884105728").2 =
      .ok ⟨[], some "transfer successful", none⟩ ∧
    read_balance (try_transfer okApi ovStore (strBytes "A") "B"
        "170141183460469231731687303715884105728").1 (strBytes "B") = .ok 0 ∧
    (2 : Nat) ^ 127 + 2 ^ 127 ≠ 0 :=
  ⟨rfl, rfl, rfl, rfl, by norm_num⟩

/-- **C2** (amended): for distinct accounts `A ≠ B`, if `balance(A) ≥ x` and
the recipient's increment does not overflow (`balance(B) + x < 2 ^ 128`),
then `transfer(A → B, x)` succeeds, decrements `A`'s balance by `x`,
increments `B`'s balance by `x` (`B` need not have a pre-existing entry:
an absent key reads as balance `0`), and leaves every other account's
balance unchanged.  Without the overflow proviso the increment is taken
modulo `2 ^ 128`. -/
theorem transfer_correctness (api : Api) (s : Store) (signer : List Byte)
    (recipient amtStr : String) (r : List Byte) (x bA bB : Nat)
    (hab : signer ≠ r)
    (hapi : api recipient = .ok r) (hparse : parseAmount amtStr = .ok x)
    (hbA : read_balance s signer = .ok bA) (hx : x ≤ bA)
    (hbB : read_balance s r = .ok bB) (hov : bB + x < 2 ^ 128) :
    ∃ s2 resp,
      try_transfer api s signer recipient amtStr = (s2, .ok resp) ∧
      read_balance s2 signer = .ok (bA - x) ∧
      read_balance s2 r = .ok (bB + x) ∧
      ∀ c, c ≠ signer → c ≠ r → read_balance s2 c = read_balance s c := by
  have hp := perform_transfer_ok_distinct s signer r x bA bB hab hbA hx hbB
  have hAlt : bA < 2 ^ 128 := read_u128_ok_lt hbA
  have hAx : bA - x < 2 ^ 128 := by omega
  have hmod : (bB + x) % 2 ^ 128 = bB + x := Nat.mod_eq_of_lt hov
  have hkeyAB : balanceKey r ≠ balanceKey signer :=
    fun h => hab (balanceKey_inj h).symm
  refine ⟨set (set s (balanceKey signer) (to_be_bytes (bA - x))) (balanceKey r)
      (to_be_bytes ((bB + x) % 2 ^ 128)), ⟨[], some "transfer successful", none⟩,
    by simp [try_transfer, hapi, hparse, hp], ?_, ?_, ?_⟩
  · rw [read_balance, read_u128_set_ne _ _ hkeyAB, read_u128_set_to_be_bytes _ _ hAx]
  · rw [read_balance, hmod, read_u128_set_to_be_bytes _ _ hov]
  · intro c hcA hcB
    have h1 : balanceKey r ≠ balanceKey c := fun h => hcB (balanceKey_inj h).symm
    have h2 : balanceKey signer ≠ balanceKey c := fun h => hcA (balanceKey_inj h).symm
    rw [read_balance, read_u128_set_ne _ _ h1, read_u128_set_ne _ _ h2]
    rfl

/-- Witness for the amended C2: `A` (balance 100) sends 40 to `B`
(balance 30), leaving 60 and 70, with `O`'s balance untouched. -/
theorem transfer_correctness_witness :
    strBytes "A" ≠ strBytes "B" ∧
    okApi "B" = .ok (strBytes "B") ∧
    parseAmount "40" = .ok 40 ∧
    read_balance wStore (strBytes "A") = .ok 100 ∧
    40 ≤ 100 ∧
    read_balance wStore (strBytes "B") = .ok 30 ∧
    30 + 40 < 2 ^ 128 ∧
    (∃ s2 resp,
      try_transfer okApi wStore (strBytes "A") "B" "40" = (s2, .ok resp) ∧
      read_balance s2 (strBytes "A") = .ok 60 ∧
      read_balance s2 (strBytes "B") = .ok 70 ∧
      ∀ c, c ≠ strBytes "A" → c ≠ strBytes "B" →
        read_balance s2 c = read_balance wStore c) :=
  ⟨by decide, rfl, rfl, rfl, by norm_num, rfl, by norm_num,
    transfer_correctness okApi wStore (strBytes "A") "B" "40" (strBytes "B")
      40 100 30 (by decide) rfl rfl rfl (by norm_num) rfl (by norm_num)⟩

/-! ## Claims C4 and C5: transfer-from -/

theorem read_balance_write_allowance (s : Store) (o sp : List Byte) (v : Nat)
    (c : List Byte) :
    read_balance (write_allowance s o sp v) c = read_balance s c := by
  rw [read_balance, write_allowance,
    read_u128_set_ne _ _ (allowanceKey_ne_balanceKey o sp c)]
  rfl

theorem read_allowance_set_balance (s : Store) (a : List Byte) (v : List Byte)
    (o sp : List Byte) :
    read_allowance (set s (balanceKey a) v) o sp = read_allowance s o sp := by
  rw [read_allowance,
    read_u128_set_ne _ _ (Ne.symm (allowanceKey_ne_balanceKey o sp a))]
  rfl

theorem read_allowance_write_allowance_self (s : Store) (o sp : List Byte)
    (v : Nat) (hv : v < 2 ^ 128) :
    read_allowance (write_allowance s o sp v) o sp = .ok v := by
  rw [read_allowance, write_allowance, read_u128_set_to_be_bytes _ _ hv]

/-- **C4** (confirmed): when the spender's `(O, S)` allowance and `O`'s
balance both cover `x`, `transfer_from` succeeds, decrements the stored
`(O, S)` allowance by exactly `x`, and applies to the balances exactly the
effect of `perform_transfer(O → R, x)` on the original store — `O`
decremented, `R` incremented, every other balance untouched. -/
theorem transfer_from_consumption (api : Api) (s : Store) (signer : List Byte)
    (owner recipient amtStr : String) (o r : List Byte) (x al bO bR : Nat)
    (hoapi : api owner = .ok o) (hrapi : api recipient = .ok r)
    (hparse : parseAmount amtStr = .ok x)
    (hal : read_allowance s o signer = .ok al) (hxal : x ≤ al)
    (hbO : read_balance s o = .ok bO) (hxbO : x ≤ bO)
    (hbR : read_balance s r = .ok bR) :
    ∃ s3 resp,
      try_transfer_from api s signer owner recipient amtStr = (s3, .ok resp) ∧
      read_allowance s3 o signer = .ok (al - x) ∧
      (perform_transfer s o r x).2 = .ok () ∧
      ∀ c, read_balance s3 c = read_balance (perform_transfer s o r x).1 c := by
  have hallt : al < 2 ^ 128 := read_u128_ok_lt hal
  have halx : al - x < 2 ^ 128 := by omega
  have hnot : ¬ al < x := Nat.not_lt.mpr hxal
  have hb1O : read_balance (write_allowance s o signer (al - x)) o = .ok bO := by
    rw [read_balance_write_allowance]
    exact hbO
  have hb1R : read_balance (write_allowance s o signer (al - x)) r = .ok bR := by
    rw [read_balance_write_allowance]
    exact hbR
  have hallow1 : read_allowance (write_allowance s o signer (al - x)) o signer
      = .ok (al - x) := read_allowance_write_allowance_self s o signer _ halx
  by_cases hor : o = r
  · subst hor
    injection hbO.symm.trans hbR with hbOR
    subst hbOR
    have hp2 := perform_transfer_ok_self s o x bO hbO hxbO
    have hp3 := perform_transfer_ok_self (write_allowance s o signer (al - x))
      o x bO hb1O hxbO
    refine ⟨set (set (write_allowance s o signer (al - x)) (balanceKey o)
        (to_be_bytes (bO - x))) (balanceKey o) (to_be_bytes bO),
      ⟨[], some "transfer from successful", none⟩,
      by simp [try_transfer_from, hoapi, hrapi, hparse, hal, hnot, hp3], ?_, ?_, ?_⟩
    · rw [read_allowance_set_balance, read_allowance_set_balance]
      exact hallow1
    · rw [hp2]
    · intro c
      rw [hp2]
      by_cases hc : c = o
      · subst hc
        rw [read_balance, read_balance,
          read_u128_set_to_be_bytes _ _ (read_u128_ok_lt hbO),
          read_u128_set_to_be_bytes _ _ (read_u128_ok_lt hbO)]
      · have hkey : balanceKey o ≠ balanceKey c := fun h => hc (balanceKey_inj h).symm
        rw [read_balance, read_u128_set_ne _ _ hkey, read_u128_set_ne _ _ hkey,
          read_balance, read_u128_set_ne _ _ hkey, read_u128_set_ne _ _ hkey]
        exact read_balance_write_allowance s o signer (al - x) c
  · have hp2 := perform_transfer_ok_distinct s o r x bO bR hor hbO hxbO hbR
    have hp3 := perform_transfer_ok_distinct (write_allowance s o signer (al - x))
      o r x bO bR hor hb1O hxbO hb1R
    refine ⟨set (set (write_allowance s o signer (al - x)) (balanceKey o)
        (to_be_bytes (bO - x))) (balanceKey r) (to_be_bytes ((bR + x) % 2 ^ 128)),
      ⟨[], some "transfer from successful", none⟩,
      by simp [try_transfer_from, hoapi, hrapi, hparse, hal, hnot, hp3], ?_, ?_, ?_⟩
    · rw [read_allowance_set_balance, read_allowance_set_balance]
      exact hallow1
    · rw [hp2]
    · intro c
      rw [hp2]
      by_cases hcr : c = r
      · subst hcr
        rw [read_balance, read_balance, read_u128, read_u128, get_set_self,
          get_set_self]
      · have hkeyR : balanceKey r ≠ balanceKey c := fun h => hcr (balanceKey_inj h).symm
        by_cases hco : c = o
        · subst hco
          rw [read_balance, read_balance, read_u128, read_u128,
            get_set_ne _ _ hkeyR, get_set_ne _ _ hkeyR, get_set_self, get_set_self]
        · have hkeyO : balanceKey o ≠ balanceKey c :=
            fun h => hco (balanceKey_inj h).symm
          rw [read_balance, read_u128_set_ne _ _ hkeyR, read_u128_set_ne _ _ hkeyO,
            read_balance, read_u128_set_ne _ _ hkeyR, read_u128_set_ne _ _ hkeyO]
          exact read_balance_write_allowance s o signer (al - x) c

/-- Witness for C4: spender `S` moves 15 of owner `O`'s 50 to `B` under the
stored allowance of 20, leaving allowance 5 and the same balances as a
direct transfer. -/
theorem transfer_from_consumption_witness :
    okApi "O" = .ok (strBytes "O") ∧
    okApi "B" = .ok (strBytes "B") ∧
    parseAmount "15" = .ok 15 ∧
    read_allowance wStore (strBytes "O") (strBytes "S") = .ok 20 ∧
    15 ≤ 20 ∧
    read_balance wStore (strBytes "O") = .ok 50 ∧
    15 ≤ 50 ∧
    read_balance wStore (strBytes "B") = .ok 30 ∧
    (∃ s3 resp,
      try_transfer_from okApi wStore (strBytes "S") "O" "B" "15" =
        (s3, .ok resp) ∧
      read_allowance s3 (strBytes "O") (strBytes "S") = .ok 5 ∧
      (perform_transfer wStore (strBytes "O") (strBytes "B") 15).2 = .ok () ∧
      ∀ c, read_balance s3 c =
        read_balance (perform_transfer wStore (strBytes "O") (strBytes "B") 15).1 c) :=
  ⟨rfl, rfl, rfl, rfl, by norm_num, rfl, by norm_num, rfl,
    transfer_from_consumption okApi wStore (strBytes "S") "O" "B" "15"
      (strBytes "O") (strBytes "B") 15 20 50 30 rfl rfl rfl rfl (by norm_num)
      rfl (by norm_num) rfl⟩

/-- Allowance 5 but balance only 3: the failing `transfer_from` leaves the
allowance already decremented to 0. -/
def c5Store : Store :=
  [(balanceKey (strBytes "O"), to_be_bytes 3),
   (allowanceKey (strBytes "O") (strBytes "S"), to_be_bytes 5)]

/-- **C5** (counterexample): the claim says a `transfer_from` that fails on
either precondition changes nothing — in particular the stored `(O, S)`
allowance.  With allowance 5 and `balance(O) = 3`, `transfer_from(S, O → R,
5)` fails with *Insufficient Funds*, yet the stored allowance afterwards is
0, not 5: the decremented allowance was persisted before the balance check
(spec §4.6's own ordering note). -/
theorem transfer_from_failure_counterexample :
    read_allowance c5Store (strBytes "O") (strBytes "S") = .ok 5 ∧
    read_balance c5Store (strBytes "O") = .ok 3 ∧
    (try_transfer_from okApi c5Store (strBytes "S") "O" "R" "5").2 =
      .error (.dynContractErr "Insufficient funds: balance=3, required=5") ∧
    read_allowance (try_transfer_from okApi c5Store (strBytes "S") "O" "R" "5").1
      (strBytes "O") (strBytes "S") = .ok 0 ∧
    (0 : Nat) ≠ 5 :=
  ⟨rfl, rfl, rfl, rfl, by norm_num⟩

/-- **C5** (amended): if `allowance(O,S) < x` the call fails with
*Insufficient Allowance* and the store is returned exactly as it was; if
`allowance(O,S) ≥ x` but `balance(O) < x` the call fails with *Insufficient
Funds* and every balance is unchanged, but the stored `(O, S)` allowance has
already been decremented by `x` — rolling it back is left to the host's
transaction boundary. -/
theorem transfer_from_failure_atomicity (api : Api) (s : Store)
    (signer : List Byte) (owner recipient amtStr : String) (o r : List Byte)
    (x al : Nat)
    (hoapi : api owner = .ok o) (hrapi : api recipient = .ok r)
    (hparse : parseAmount amtStr = .ok x)
    (hal : read_allowance s o signer = .ok al) :
    (al < x →
      try_transfer_from api s signer owner recipient amtStr =
        (s, .error (.dynContractErr ("Insufficient allowance: allowance=" ++
          toString al ++ ", required=" ++ toString x)))) ∧
    (x ≤ al → ∀ bO, read_balance s o = .ok bO → bO < x →
      try_transfer_from api s signer owner recipient amtStr =
        (write_allowance s o signer (al - x),
         .error (.dynContractErr ("Insufficient funds: balance=" ++
           toString bO ++ ", required=" ++ toString x))) ∧
      read_allowance (write_allowance s o signer (al - x)) o signer =
        .ok (al - x) ∧
      ∀ c, read_balance (write_allowance s o signer (al - x)) c =
        read_balance s c) := by
  have hallt : al < 2 ^ 128 := read_u128_ok_lt hal
  constructor
  · intro hlt
    simp [try_transfer_from, hoapi, hrapi, hparse, hal, hlt]
  · intro hxal bO hbO hbOx
    have halx : al - x < 2 ^ 128 := by omega
    have hnot : ¬ al < x := Nat.not_lt.mpr hxal
    have hb1O : read_balance (write_allowance s o signer (al - x)) o = .ok bO := by
      rw [read_balance_write_allowance]
      exact hbO
    have hp := perform_transfer_insufficient (write_allowance s o signer (al - x))
      o r x bO hb1O hbOx
    refine ⟨by simp [try_transfer_from, hoapi, hrapi, hparse, hal, hnot, hp], ?_, ?_⟩
    · exact read_allowance_write_allowance_self s o signer _ halx
    · exact read_balance_write_allowance s o signer (al - x)

/-- Witness for the amended C5 at the concrete failing store: allowance 5,
balance 3, requested amount 5. -/
theorem transfer_from_failure_atomicity_witness :
    okApi "O" = .ok (strBytes "O") ∧
    okApi "R" = .ok (strBytes "R") ∧
    parseAmount "5" = .ok 5 ∧
    read_allowance c5Store (strBytes "O") (strBytes "S") = .ok 5 ∧
    ((5 < 5 →
      try_transfer_from okApi c5Store (strBytes "S") "O" "R" "5" =
        (c5Store, .error (.dynContractErr ("Insufficient allowance: allowance=" ++
          toString 5 ++ ", required=" ++ toString 5)))) ∧
    (5 ≤ 5 → ∀ bO, read_balance c5Store (strBytes "O") = .ok bO → bO < 5 →
      try_transfer_from okApi c5Store (strBytes "S") "O" "R" "5" =
        (write_allowance c5Store (strBytes "O") (strBytes "S") (5 - 5),
         .error (.dynContractErr ("Insufficient funds: balance=" ++
           toString bO ++ ", required=" ++ toString 5))) ∧
      read_allowance (write_allowance c5Store (strBytes "O") (strBytes "S") (5 - 5))
        (strBytes "O") (strBytes "S") = .ok (5 - 5) ∧
      ∀ c, read_balance (write_allowance c5Store (strBytes "O") (strBytes "S") (5 - 5)) c =
        read_balance c5Store c)) :=
  ⟨rfl, rfl, rfl, rfl,
    transfer_from_failure_atomicity okApi c5Store (strBytes "S") "O" "R" "5"
      (strBytes "O") (strBytes "R") 5 5 rfl rfl rfl rfl⟩

/-! ## Claim C9: query defaults and failure modes -/

/-- A store holding a corrupt (1-byte) value under a balance key. -/
def c9Store : Store := [(balanceKey (strBytes "Q"), [0])]

/-- **C9** (counterexample): the claim says queries never return an error
except on canonicalization failure.  On a store whose balance value for `Q`
is a single byte, the Balance query for `Q` fails — with the decoder's
out-of-range panic, not a canonicalization error — even though
canonicalization succeeded. -/
theorem query_error_counterexample :
    okApi "Q" = .ok (strBytes "Q") ∧
    query okApi c9Store (.balance "Q") =
      .error (.runtimePanic "range end index 16 out of range") ∧
    (∀ m, Err.runtimePanic "range end index 16 out of range" ≠
      Err.canonicalErr m) :=
  ⟨rfl, rfl, fun _ h => Err.noConfusion h⟩

/-- **C9** (amended): the Balance and Allowance queries return the
zero-amount response, with no error, for any address or owner/spender pair
whose key was never written; on written keys they succeed whenever the
stored value is at least 16 bytes, so — on stores whose values are
well-formed — the only possible error is a canonicalization failure.  A
stored value shorter than 16 bytes additionally makes the decoder panic. -/
theorem query_defaults (api : Api) (s : Store) (address owner spender : String)
    (ca co csp : List Byte)
    (ha : api address = .ok ca) (ho : api owner = .ok co)
    (hsp : api spender = .ok csp) :
    (get s (balanceKey ca) = none →
      query api s (.balance address) = .ok (.balanceResponse "0")) ∧
    (∀ v, get s (balanceKey ca) = some v → 16 ≤ v.length →
      ∃ out, query api s (.balance address) = .ok out) ∧
    (get s (allowanceKey co csp) = none →
      query api s (.allowance owner spender) = .ok (.allowanceResponse "0")) ∧
    (∀ v, get s (allowanceKey co csp) = some v → 16 ≤ v.length →
      ∃ out, query api s (.allowance owner spender) = .ok out) := by
  have h0 : amountFrom 0 = "0" := by decide
  refine ⟨?_, ?_, ?_, ?_⟩
  · intro hnone
    simp [query, ha, read_balance, read_u128, hnone, h0]
  · intro v hsome hlen
    refine ⟨.balanceResponse (amountFrom (from_be_bytes (v.take 16))), ?_⟩
    simp [query, ha, read_balance, read_u128, hsome, bytes_to_u128,
      Nat.not_lt.mpr hlen]
  · intro hnone
    simp [query, ho, hsp, read_allowance, read_u128, hnone, h0]
  · intro v hsome hlen
    refine ⟨.allowanceResponse (amountFrom (from_be_bytes (v.take 16))), ?_⟩
    simp [query, ho, hsp, read_allowance, read_u128, hsome, bytes_to_u128,
      Nat.not_lt.mpr hlen]

/-- Witness for the amended C9 on the concrete store: `Z` has no balance
entry and the pair `(X, Y)` has no allowance entry. -/
theorem query_defaults_witness :
    okApi "Z" = .ok (strBytes "Z") ∧
    okApi "X" = .ok (strBytes "X") ∧
    okApi "Y" = .ok (strBytes "Y") ∧
    ((get wStore (balanceKey (strBytes "Z")) = none →
      query okApi wStore (.balance "Z") = .ok (.balanceResponse "0")) ∧
    (∀ v, get wStore (balanceKey (strBytes "Z")) = some v → 16 ≤ v.length →
      ∃ out, query okApi wStore (.balance "Z") = .ok out) ∧
    (get wStore (allowanceKey (strBytes "X") (strBytes "Y")) = none →
      query okApi wStore (.allowance "X" "Y") = .ok (.allowanceResponse "0")) ∧
    (∀ v, get wStore (allowanceKey (strBytes "X") (strBytes "Y")) = some v →
      16 ≤ v.length →
      ∃ out, query okApi wStore (.allowance "X" "Y") = .ok out)) :=
  ⟨rfl, rfl, rfl,
    query_defaults okApi wStore "Z" "X" "Y" (strBytes "Z") (strBytes "X")
      (strBytes "Y") rfl rfl rfl⟩

/-! ## Claim C1: conservation of supply

The sum of all stored balances, and the bookkeeping lemmas that track it
through `set`. -/

/-- The sum of all balances stored in `s`: every entry in the balance
namespace, decoded the way `read_u128` decodes it. -/
def sumBalances (s : Store) : Nat :=
  ((s.filter fun kv => isBalanceKey kv.1).map
    fun kv => from_be_bytes (kv.2.take 16)).sum

theorem sumBalances_nil : sumBalances [] = 0 := rfl

theorem sumBalances_cons_pos {kv : List Byte × List Byte} (rest : Store)
    (h : isBalanceKey kv.1 = true) :
    sumBalances (kv :: rest) = from_be_bytes (kv.2.take 16) + sumBalances rest := by
  simp [sumBalances, List.filter_cons, h]

theorem sumBalances_cons_neg {kv : List Byte × List Byte} (rest : Store)
    (h : isBalanceKey kv.1 = false) :
    sumBalances (kv :: rest) = sumBalances rest := by
  simp [sumBalances, List.filter_cons, h]

theorem sumBalances_set_present {s : Store} {k w : List Byte} (v : List Byte)
    (hget : get s k = some w) (hbal : isBalanceKey k = true) :
    sumBalances (set s k v) + from_be_bytes (w.take 16) =
      from_be_bytes (v.take 16) + sumBalances s := by
  induction s with
  | nil => simp [get] at hget
  | cons hd rest ih =>
    by_cases hk : hd.1 = k
    · rw [get, if_pos hk] at hget
      injection hget with hw
      subst hw
      have hb2 : isBalanceKey hd.1 = true := by rw [hk]; exact hbal
      rw [set, if_pos hk, sumBalances_cons_pos rest hb2]
      have hb3 : isBalanceKey ((k, v) : List Byte × List Byte).1 = true := hbal
      rw [sumBalances_cons_pos rest hb3]
      dsimp only
      omega
    · rw [get, if_neg hk] at hget
      rw [set, if_neg hk]
      by_cases hhd : isBalanceKey hd.1 = true
      · rw [sumBalances_cons_pos _ hhd, sumBalances_cons_pos _ hhd]
        have := ih hget
        omega
      · rw [sumBalances_cons_neg _ (by simpa using hhd),
          sumBalances_cons_neg _ (by simpa using hhd)]
        exact ih hget

theorem sumBalances_set_absent {s : Store} {k : List Byte} (v : List Byte)
    (hget : get s k = none) (hbal : isBalanceKey k = true) :
    sumBalances (set s k v) = from_be_bytes (v.take 16) + sumBalances s := by
  induction s with
  | nil => simp [set, sumBalances, hbal]
  | cons hd rest ih =>
    by_cases hk : hd.1 = k
    · rw [get, if_pos hk] at hget
      cases hget
    · rw [get, if_neg hk] at hget
      rw [set, if_neg hk]
      by_cases hhd : isBalanceKey hd.1 = true
      · rw [sumBalances_cons_pos _ hhd, sumBalances_cons_pos _ hhd, ih hget]
        omega
      · rw [sumBalances_cons_neg _ (by simpa using hhd),
          sumBalances_cons_neg _ (by simpa using hhd)]
        exact ih hget

theorem sumBalances_set_nonbalance {s : Store} {k : List Byte} (v : List Byte)
    (hbal : isBalanceKey k = false) :
    sumBalances (set s k v) = sumBalances s := by
  induction s with
  | nil => simp [set, sumBalances, hbal]
  | cons hd rest ih =>
    by_cases hk : hd.1 = k
    · have hb2 : isBalanceKey hd.1 = false := by rw [hk]; exact hbal
      have hb3 : isBalanceKey ((k, v) : List Byte × List Byte).1 = false := hbal
      rw [set, if_pos hk, sumBalances_cons_neg rest hb3,
        sumBalances_cons_neg rest hb2]
    · rw [set, if_neg hk]
      by_cases hhd : isBalanceKey hd.1 = true
      · rw [sumBalances_cons_pos _ hhd, sumBalances_cons_pos _ hhd, ih]
      · rw [sumBalances_cons_neg _ (by simpa using hhd),
          sumBalances_cons_neg _ (by simpa using hhd), ih]

theorem get_le_sumBalances {s : Store} {k w : List Byte}
    (hget : get s k = some w) (hbal : isBalanceKey k = true) :
    from_be_bytes (w.take 16) ≤ sumBalances s := by
  induction s with
  | nil => simp [get] at hget
  | cons hd rest ih =>
    by_cases hk : hd.1 = k
    · rw [get, if_pos hk] at hget
      injection hget with hw
      subst hw
      have hb2 : isBalanceKey hd.1 = true := by rw [hk]; exact hbal
      rw [sumBalances_cons_pos rest hb2]
      omega
    · rw [get, if_neg hk] at hget
      by_cases hhd : isBalanceKey hd.1 = true
      · rw [sumBalances_cons_pos _ hhd]
        have := ih hget
        omega
      · rw [sumBalances_cons_neg _ (by simpa using hhd)]
        exact ih hget

theorem get_pair_le_sumBalances {s : Store} {k1 k2 w1 w2 : List Byte}
    (hne : k1 ≠ k2)
    (hg1 : get s k1 = some w1) (hb1 : isBalanceKey k1 = true)
    (hg2 : get s k2 = some w2) (hb2 : isBalanceKey k2 = true) :
    from_be_bytes (w1.take 16) + from_be_bytes (w2.take 16) ≤ sumBalances s := by
  induction s with
  | nil => simp [get] at hg1
  | cons hd rest ih =>
    by_cases hk1 : hd.1 = k1
    · rw [get, if_pos hk1] at hg1
      injection hg1 with hw
      subst hw
      have hk2 : ¬ hd.1 = k2 := fun h => hne ((hk1.symm.trans h))
      rw [get, if_neg hk2] at hg2
      have hhb1 : isBalanceKey hd.1 = true := by rw [hk1]; exact hb1
      rw [sumBalances_cons_pos rest hhb1]
      have := get_le_sumBalances hg2 hb2
      omega
    · rw [get, if_neg hk1] at hg1
      by_cases hk2 : hd.1 = k2
      · rw [get, if_pos hk2] at hg2
        injection hg2 with hw
        subst hw
        have hhb2 : isBalanceKey hd.1 = true := by rw [hk2]; exact hb2
        rw [sumBalances_cons_pos rest hhb2]
        have := get_le_sumBalances hg1 hb1
        omega
      · rw [get, if_neg hk2] at hg2
        by_cases hhd : isBalanceKey hd.1 = true
        · rw [sumBalances_cons_pos _ hhd]
          have := ih hg1 hg2
          omega
        · rw [sumBalances_cons_neg _ (by simpa using hhd)]
          exact ih hg1 hg2

theorem get_mem {s : Store} {k v : List Byte} (h : get s k = some v) :
    (k, v) ∈ s := by
  induction s with
  | nil => simp [get] at h
  | cons hd rest ih =>
    obtain ⟨k1, v1⟩ := hd
    by_cases hk : k1 = k
    · rw [get] at h
      dsimp only at h
      rw [if_pos hk] at h
      injection h with hv
      subst hk
      subst hv
      exact List.mem_cons_self _ _
    · rw [get] at h
      dsimp only at h
      rw [if_neg hk] at h
      exact List.mem_cons_of_mem _ (ih h)

theorem read_u128_of_get_some {s : Store} {k v : List Byte}
    (hget : get s k = some v) (hlen : 16 ≤ v.length) :
    read_u128 s k = .ok (from_be_bytes (v.take 16)) := by
  simp [read_u128, hget, bytes_to_u128, Nat.not_lt.mpr hlen]

theorem read_u128_of_get_none {s : Store} {k : List Byte}
    (hget : get s k = none) : read_u128 s k = .ok 0 := by
  simp [read_u128, hget]

/-! ### Inversion of the successful operations -/

theorem perform_transfer_ok_inv (s : Store) (f t : List Byte) (x : Nat)
    (s2 : Store) (u : Unit)
    (h : perform_transfer s f t x = (s2, .ok u)) :
    ∃ bf bt, read_u128 s (balanceKey f) = .ok bf ∧ x ≤ bf ∧
      read_u128 (set s (balanceKey f) (to_be_bytes (bf - x)))
        (balanceKey t) = .ok bt ∧
      s2 = set (set s (balanceKey f) (to_be_bytes (bf - x))) (balanceKey t)
        (to_be_bytes ((bt + x) % 2 ^ 128)) := by
  unfold perform_transfer at h
  cases hrf : read_u128 s (balanceKey f) with
  | error e =>
    rw [hrf] at h
    simp at h
  | ok bf =>
    rw [hrf] at h
    dsimp only at h
    by_cases hlt : bf < x
    · rw [if_pos hlt] at h
      simp at h
    · rw [if_neg hlt] at h
      cases hrt : read_u128 (set s (balanceKey f) (to_be_bytes (bf - x)))
          (balanceKey t) with
      | error e =>
        rw [hrt] at h
        simp at h
      | ok bt =>
        rw [hrt] at h
        dsimp only at h
        injection h with h1 h2
        exact ⟨bf, bt, rfl, Nat.not_lt.mp hlt, hrt, h1.symm⟩

theorem try_transfer_ok_inv (api : Api) (s : Store) (signer : List Byte)
    (recipient amount : String) (s2 : Store) (resp : Response)
    (h : try_transfer api s signer recipient amount = (s2, .ok resp)) :
    ∃ r x u, perform_transfer s signer r x = (s2, .ok u) := by
  unfold try_transfer at h
  cases hapi : api recipient with
  | error e =>
    rw [hapi] at h
    simp at h
  | ok r =>
    rw [hapi] at h
    dsimp only at h
    cases hparse : parseAmount amount with
    | error e =>
      rw [hparse] at h
      simp at h
    | ok x =>
      rw [hparse] at h
      dsimp only at h
      rcases hp : perform_transfer s signer r x with ⟨s3, res⟩
      rw [hp] at h
      cases res with
      | error e =>
        dsimp only at h
        simp at h
      | ok u =>
        dsimp only at h
        injection h with h1 h2
        exact ⟨r, x, u, by rw [hp, h1]⟩

theorem try_approve_ok_inv (api : Api) (s : Store) (signer : List Byte)
    (spender amount : String) (s2 : Store) (resp : Response)
    (h : try_approve api s signer spender amount = (s2, .ok resp)) :
    ∃ sp v, s2 = write_allowance s signer sp v := by
  unfold try_approve at h
  cases hapi : api spender with
  | error e =>
    rw [hapi] at h
    simp at h
  | ok sp =>
    rw [hapi] at h
    dsimp only at h
    cases hparse : parseAmount amount with
    | error e =>
      rw [hparse] at h
      simp at h
    | ok v =>
      rw [hparse] at h
      dsimp only at h
      injection h with h1 h2
      exact ⟨sp, v, h1.symm⟩

theorem try_transfer_from_ok_inv (api : Api) (s : Store) (signer : List Byte)
    (owner recipient amount : String) (s2 : Store) (resp : Response)
    (h : try_transfer_from api s signer owner recipient amount =
      (s2, .ok resp)) :
    ∃ o r x w u,
      perform_transfer (write_allowance s o signer w) o r x = (s2, .ok u) := by
  unfold try_transfer_from at h
  cases hoapi : api owner with
  | error e =>
    rw [hoapi] at h
    simp at h
  | ok o =>
    rw [hoapi] at h
    dsimp only at h
    cases hrapi : api recipient with
    | error e =>
      rw [hrapi] at h
      simp at h
    | ok r =>
      rw [hrapi] at h
      dsimp only at h
      cases hparse : parseAmount amount with
      | error e =>
        rw [hparse] at h
        simp at h
      | ok x =>
        rw [hparse] at h
        dsimp only at h
        cases hal : read_allowance s o signer with
        | error e =>
          rw [hal] at h
          simp at h
        | ok al =>
          rw [hal] at h
          dsimp only at h
          by_cases hlt : al < x
          · rw [if_pos hlt] at h
            simp at h
          · rw [if_neg hlt] at h
            rcases hp : perform_transfer (write_allowance s o signer (al - x))
                o r x with ⟨s3, res⟩
            rw [hp] at h
            cases res with
            | error e =>
              dsimp only at h
              simp at h
            | ok u =>
              dsimp only at h
              injection h with h1 h2
              exact ⟨o, r, x, al - x, u, by rw [hp, h1]⟩

/-! ### The conservation invariant and its preservation -/

/-- The conservation invariant: every stored balance value is a 16-byte
encoding, the stored Total Supply reads back as the sum of all stored
balances, and that sum fits in 128 bits. -/
structure Inv (s : Store) : Prop where
  lens : ∀ kv ∈ s, isBalanceKey kv.1 = true → kv.2.length = 16
  ts : read_u128 s KEY_TOTAL_SUPPLY = .ok (sumBalances s)
  bound : sumBalances s < 2 ^ 128

theorem read_u128_eq_of_get_eq {s1 s2 : Store} {k : List Byte}
    (h : get s1 k = get s2 k) : read_u128 s1 k = read_u128 s2 k := by
  rw [read_u128, read_u128, h]

theorem inv_write_allowance {s : Store} (o sp : List Byte) (v : Nat)
    (hInv : Inv s) : Inv (write_allowance s o sp v) := by
  have hsum : sumBalances (write_allowance s o sp v) = sumBalances s :=
    sumBalances_set_nonbalance _ (isBalanceKey_allowanceKey o sp)
  refine ⟨?_, ?_, ?_⟩
  · intro kv hmem hbal
    rcases mem_set hmem with hnew | hold
    · subst hnew
      rw [isBalanceKey_allowanceKey] at hbal
      cases hbal
    · exact hInv.lens kv hold hbal
  · have hget : get (write_allowance s o sp v) KEY_TOTAL_SUPPLY =
        get s KEY_TOTAL_SUPPLY :=
      get_set_ne s _ (allowanceKey_ne_total_supply o sp)
    rw [read_u128_eq_of_get_eq hget, hsum]
    exact hInv.ts
  · rw [hsum]
    exact hInv.bound

theorem from_be_bytes_take_to_be_bytes (n : Nat) (hn : n < 2 ^ 128) :
    from_be_bytes ((to_be_bytes n).take 16) = n := by
  have htake : (to_be_bytes n).take 16 = to_be_bytes n :=
    List.take_of_length_le (le_of_eq (to_be_bytes_length n))
  rw [htake, from_be_bytes_to_be_bytes, Nat.mod_eq_of_lt hn]

theorem inv_perform_transfer {s s2 : Store} {f t : List Byte} {x : Nat}
    {u : Unit} (hInv : Inv s)
    (h : perform_transfer s f t x = (s2, .ok u)) : Inv s2 := by
  obtain ⟨bf, bt, hrf, hx, hrt, hs2⟩ := perform_transfer_ok_inv s f t x s2 u h
  -- the value actually stored for `f`, and its relation to the sum
  have hbf_le : bf ≤ sumBalances s := by
    cases hgf : get s (balanceKey f) with
    | none =>
      rw [read_u128_of_get_none hgf] at hrf
      injection hrf with hbf0
      omega
    | some vf =>
      have hlen : vf.length = 16 :=
        hInv.lens _ (get_mem hgf) (isBalanceKey_balanceKey f)
      rw [read_u128_of_get_some hgf (le_of_eq hlen.symm)] at hrf
      injection hrf with hbfv
      rw [← hbfv]
      exact get_le_sumBalances hgf (isBalanceKey_balanceKey f)
  have hbf_lt : bf < 2 ^ 128 := Nat.lt_of_le_of_lt hbf_le hInv.bound
  have hbfx_lt : bf - x < 2 ^ 128 := by omega
  -- sum of the intermediate store
  have hsum1 : sumBalances (set s (balanceKey f) (to_be_bytes (bf - x))) + x =
      sumBalances s := by
    cases hgf : get s (balanceKey f) with
    | none =>
      rw [read_u128_of_get_none hgf] at hrf
      injection hrf with hbf0
      have hx0 : x = 0 := by omega
      rw [sumBalances_set_absent _ hgf (isBalanceKey_balanceKey f),
        from_be_bytes_take_to_be_bytes _ hbfx_lt]
      omega
    | some vf =>
      have hlen : vf.length = 16 :=
        hInv.lens _ (get_mem hgf) (isBalanceKey_balanceKey f)
      rw [read_u128_of_get_some hgf (le_of_eq hlen.symm)] at hrf
      injection hrf with hbfv
      have := sumBalances_set_present (to_be_bytes (bf - x)) hgf
        (isBalanceKey_balanceKey f)
      rw [from_be_bytes_take_to_be_bytes _ hbfx_lt, hbfv] at this
      omega
  -- the recipient's balance and the no-overflow bound
  have hbt_bound : bt + x ≤ sumBalances s := by
    by_cases hft : f = t
    · subst hft
      rw [read_u128_set_to_be_bytes _ _ hbfx_lt] at hrt
      injection hrt with hbt
      omega
    · have hkey : balanceKey f ≠ balanceKey t := fun hk => hft (balanceKey_inj hk)
      rw [read_u128_set_ne _ _ hkey] at hrt
      cases hgt : get s (balanceKey t) with
      | none =>
        rw [read_u128_of_get_none hgt] at hrt
        injection hrt with hbt
        omega
      | some vt =>
        have hlent : vt.length = 16 :=
          hInv.lens _ (get_mem hgt) (isBalanceKey_balanceKey t)
        rw [read_u128_of_get_some hgt (le_of_eq hlent.symm)] at hrt
        injection hrt with hbtv
        cases hgf : get s (balanceKey f) with
        | none =>
          rw [read_u128_of_get_none hgf] at hrf
          injection hrf with hbf0
          have := get_le_sumBalances hgt (isBalanceKey_balanceKey t)
          omega
        | some vf =>
          have hlenf : vf.length = 16 :=
            hInv.lens _ (get_mem hgf) (isBalanceKey_balanceKey f)
          rw [read_u128_of_get_some hgf (le_of_eq hlenf.symm)] at hrf
          injection hrf with hbfv
          have := get_pair_le_sumBalances hkey hgf (isBalanceKey_balanceKey f)
            hgt (isBalanceKey_balanceKey t)
          omega
  have hbtx_lt : bt + x < 2 ^ 128 := Nat.lt_of_le_of_lt hbt_bound hInv.bound
  have hmod : (bt + x) % 2 ^ 128 = bt + x := Nat.mod_eq_of_lt hbtx_lt
  -- sum of the final store
  have hsum2 : sumBalances s2 = sumBalances s := by
    rw [hs2]
    cases hgt1 : get (set s (balanceKey f) (to_be_bytes (bf - x)))
        (balanceKey t) with
    | none =>
      rw [read_u128_of_get_none hgt1] at hrt
      injection hrt with hbt0
      rw [sumBalances_set_absent _ hgt1 (isBalanceKey_balanceKey t), hmod,
        from_be_bytes_take_to_be_bytes _ hbtx_lt]
      omega
    | some vt =>
      have hlenvt : vt.length = 16 := by
        rcases mem_set (get_mem hgt1) with hnew | hold
        · injection hnew with hfst hsnd
          rw [hsnd]
          exact to_be_bytes_length _
        · exact hInv.lens _ hold (isBalanceKey_balanceKey t)
      rw [read_u128_of_get_some hgt1 (le_of_eq hlenvt.symm)] at hrt
      injection hrt with hbtv
      have := sumBalances_set_present (to_be_bytes ((bt + x) % 2 ^ 128)) hgt1
        (isBalanceKey_balanceKey t)
      rw [hmod] at this ⊢
      rw [from_be_bytes_take_to_be_bytes _ hbtx_lt, hbtv] at this
      omega
  refine ⟨?_, ?_, ?_⟩
  · intro kv hmem hbal
    rw [hs2] at hmem
    rcases mem_set hmem with hnew | hmem1
    · rw [hnew]
      exact to_be_bytes_length _
    · rcases mem_set hmem1 with hnew | hold
      · rw [hnew]
        exact to_be_bytes_length _
      · exact hInv.lens kv hold hbal
  · have hget : get s2 KEY_TOTAL_SUPPLY = get s KEY_TOTAL_SUPPLY := by
      rw [hs2, get_set_ne _ _ (Ne.symm (total_supply_ne_balanceKey t)),
        get_set_ne _ _ (Ne.symm (total_supply_ne_balanceKey f))]
    rw [read_u128_eq_of_get_eq hget, hsum2]
    exact hInv.ts
  · rw [hsum2]
    exact hInv.bound

/-! ### Reachability -/

/-- States reachable from a successful `init` on the empty store by any
sequence of successful `transfer`, `approve` and `transfer_from` calls;
the claim C1 quantifies over exactly these. -/
inductive Reachable : Store → Prop where
  | genesis : ∀ (api : Api) (msg : InitMsg) (s2 : Store) (resp : Response),
      init api emptyStore msg = (s2, .ok resp) → Reachable s2
  | transfer : ∀ (api : Api) (s : Store) (signer : List Byte)
      (recipient amount : String) (s2 : Store) (resp : Response),
      Reachable s →
      try_transfer api s signer recipient amount = (s2, .ok resp) →
      Reachable s2
  | approve : ∀ (api : Api) (s : Store) (signer : List Byte)
      (spender amount : String) (s2 : Store) (resp : Response),
      Reachable s →
      try_approve api s signer spender amount = (s2, .ok resp) →
      Reachable s2
  | transfer_from : ∀ (api : Api) (s : Store) (signer : List Byte)
      (owner recipient amount : String) (s2 : Store) (resp : Response),
      Reachable s →
      try_transfer_from api s signer owner recipient amount = (s2, .ok resp) →
      Reachable s2

/-- Row-by-row success of the canonicalizations and parses of an
initial-balance list, with the resulting canonical addresses and amounts. -/
def rowsOk (api : Api) : List InitialBalance → List (List Byte) → List Nat → Prop
  | [], [], [] => True
  | row :: rest, a :: as2, v :: vs =>
      api row.address = .ok a ∧ parseAmount row.amount = .ok v ∧
        rowsOk api rest as2 vs
  | _, _, _ => False

/-- States reachable as in `Reachable`, but from a *clean* init: the initial
balances canonicalize to pairwise-distinct addresses and their amounts sum
below `2 ^ 128`, so the running total does not wrap. -/
inductive ReachableClean : Store → Prop where
  | genesis : ∀ (api : Api) (msg : InitMsg) (addrs : List (List Byte))
      (amts : List Nat) (s2 : Store) (resp : Response),
      rowsOk api msg.initial_balances addrs amts →
      addrs.Nodup → amts.sum < 2 ^ 128 →
      init api emptyStore msg = (s2, .ok resp) → ReachableClean s2
  | transfer : ∀ (api : Api) (s : Store) (signer : List Byte)
      (recipient amount : String) (s2 : Store) (resp : Response),
      ReachableClean s →
      try_transfer api s signer recipient amount = (s2, .ok resp) →
      ReachableClean s2
  | approve : ∀ (api : Api) (s : Store) (signer : List Byte)
      (spender amount : String) (s2 : Store) (resp : Response),
      ReachableClean s →
      try_approve api s signer spender amount = (s2, .ok resp) →
      ReachableClean s2
  | transfer_from : ∀ (api : Api) (s : Store) (signer : List Byte)
      (owner recipient amount : String) (s2 : Store) (resp : Response),
      ReachableClean s →
      try_transfer_from api s signer owner recipient amount = (s2, .ok resp) →
      ReachableClean s2

/-! ### A clean init establishes the invariant -/

theorem initLoop_clean (api : Api) (rows : List InitialBalance) :
    ∀ (addrs : List (List Byte)) (amts : List Nat) (s : Store) (total : Nat),
    rowsOk api rows addrs amts →
    addrs.Nodup →
    (∀ a ∈ addrs, get s (balanceKey a) = none) →
    total + amts.sum < 2 ^ 128 →
    (∀ kv ∈ s, isBalanceKey kv.1 = true → kv.2.length = 16) →
    ∃ sOut,
      initLoop api rows s total = (sOut, .ok (total + amts.sum)) ∧
      sumBalances sOut = sumBalances s + amts.sum ∧
      (∀ kv ∈ sOut, isBalanceKey kv.1 = true → kv.2.length = 16) ∧
      (∀ k, isBalanceKey k = false → get sOut k = get s k) := by
  induction rows with
  | nil =>
    intro addrs amts s total hrows hnodup hfresh hbound hlens
    cases addrs with
    | cons a as2 => cases amts <;> cases hrows
    | nil =>
      cases amts with
      | cons v vs => cases hrows
      | nil =>
        refine ⟨s, ?_, by simp, hlens, fun k _ => rfl⟩
        simp [initLoop]
  | cons row rest ih =>
    intro addrs amts s total hrows hnodup hfresh hbound hlens
    cases addrs with
    | nil => cases amts <;> cases hrows
    | cons a as2 =>
      cases amts with
      | nil => cases hrows
      | cons v vs =>
        obtain ⟨hapi, hparse, hrest⟩ := hrows
        have hvlt : v < 2 ^ 128 := parseAmount_ok_lt hparse
        have hfresh_a : get s (balanceKey a) = none :=
          hfresh a (List.mem_cons_self _ _)
        have hnodup_tail : as2.Nodup := (List.nodup_cons.mp hnodup).2
        have ha_notin : a ∉ as2 := (List.nodup_cons.mp hnodup).1
        have htot : (total + v) % 2 ^ 128 = total + v := by
          have : vs.sum ≤ (v :: vs).sum := by simp
          have h2 : total + v < 2 ^ 128 := by
            simp [List.sum_cons] at hbound
            omega
          exact Nat.mod_eq_of_lt h2
        have hfresh2 : ∀ a2 ∈ as2,
            get (set s (balanceKey a) (to_be_bytes v)) (balanceKey a2) = none := by
          intro a2 hmem
          have hne : a2 ≠ a := fun h => ha_notin (h ▸ hmem)
          rw [get_set_ne _ _ (fun h => hne (balanceKey_inj h).symm)]
          exact hfresh a2 (List.mem_cons_of_mem _ hmem)
        have hlens2 : ∀ kv ∈ set s (balanceKey a) (to_be_bytes v),
            isBalanceKey kv.1 = true → kv.2.length = 16 := by
          intro kv hmem hbal
          rcases mem_set hmem with hnew | hold
          · rw [hnew]
            exact to_be_bytes_length _
          · exact hlens kv hold hbal
        have hbound2 : total + v + vs.sum < 2 ^ 128 := by
          simp [List.sum_cons] at hbound
          omega
        obtain ⟨sOut, hloop, hsum, hlensOut, hpres⟩ :=
          ih as2 vs (set s (balanceKey a) (to_be_bytes v)) (total + v)
            hrest hnodup_tail hfresh2 hbound2 hlens2
        refine ⟨sOut, ?_, ?_, hlensOut, ?_⟩
        · rw [initLoop, hapi, hparse]
          dsimp only
          rw [htot, hloop, List.sum_cons, ← Nat.add_assoc]
        · rw [hsum, sumBalances_set_absent _ hfresh_a (isBalanceKey_balanceKey a),
            from_be_bytes_take_to_be_bytes _ hvlt, List.sum_cons]
          omega
        · intro k hk
          rw [hpres k hk,
            get_set_ne _ _ (Ne.symm (ne_balanceKey_of_not_isBalanceKey hk a))]

theorem lens_set_nonbalance {s : Store} {k : List Byte} (v : List Byte)
    (hk : isBalanceKey k = false)
    (hlens : ∀ kv ∈ s, isBalanceKey kv.1 = true → kv.2.length = 16) :
    ∀ kv ∈ set s k v, isBalanceKey kv.1 = true → kv.2.length = 16 := by
  intro kv hmem hbal
  rcases mem_set hmem with hnew | hold
  · rw [hnew] at hbal
    dsimp only at hbal
    rw [hk] at hbal
    cases hbal
  · exact hlens kv hold hbal

theorem init_clean (api : Api) (msg : InitMsg) (addrs : List (List Byte))
    (amts : List Nat) (s2 : Store) (resp : Response)
    (hrows : rowsOk api msg.initial_balances addrs amts)
    (hnodup : addrs.Nodup) (hbound : amts.sum < 2 ^ 128)
    (h : init api emptyStore msg = (s2, .ok resp)) : Inv s2 := by
  obtain ⟨sOut, hloop, hsum, hlensOut, hpres⟩ :=
    initLoop_clean api msg.initial_balances addrs amts emptyStore 0 hrows hnodup
      (fun a _ => rfl) (by omega) (by intro kv hmem; cases hmem)
  have hsum0 : sumBalances sOut = amts.sum := by
    rw [hsum]
    simp [emptyStore, sumBalances]
  unfold init at h
  rw [hloop] at h
  dsimp only at h
  split at h
  · simp at h
  · split at h
    · simp at h
    · split at h
      · simp at h
      · injection h with h1 h2
        subst h1
        have hts_lt : 0 + amts.sum < 2 ^ 128 := by omega
        refine ⟨?_, ?_, ?_⟩
        · exact lens_set_nonbalance _ isBalanceKey_total_supply
            (lens_set_nonbalance _ isBalanceKey_decimals
              (lens_set_nonbalance _ isBalanceKey_symbol
                (lens_set_nonbalance _ isBalanceKey_name hlensOut)))
        · rw [read_u128_set_to_be_bytes _ _ hts_lt,
            sumBalances_set_nonbalance _ isBalanceKey_total_supply,
            sumBalances_set_nonbalance _ isBalanceKey_decimals,
            sumBalances_set_nonbalance _ isBalanceKey_symbol,
            sumBalances_set_nonbalance _ isBalanceKey_name, hsum0, Nat.zero_add]
        · rw [sumBalances_set_nonbalance _ isBalanceKey_total_supply,
            sumBalances_set_nonbalance _ isBalanceKey_decimals,
            sumBalances_set_nonbalance _ isBalanceKey_symbol,
            sumBalances_set_nonbalance _ isBalanceKey_name, hsum0]
          exact hbound

theorem reachableClean_inv (s : Store) (h : ReachableClean s) : Inv s := by
  induction h with
  | genesis api msg addrs amts s2 resp hrows hnodup hbound heq =>
    exact init_clean api msg addrs amts s2 resp hrows hnodup hbound heq
  | transfer api s signer recipient amount s2 resp hreach heq ih =>
    obtain ⟨r, x, u, hp⟩ :=
      try_transfer_ok_inv api s signer recipient amount s2 resp heq
    exact inv_perform_transfer ih hp
  | approve api s signer spender amount s2 resp hreach heq ih =>
    obtain ⟨sp, v, hs2⟩ :=
      try_approve_ok_inv api s signer spender amount s2 resp heq
    rw [hs2]
    exact inv_write_allowance signer sp v ih
  | transfer_from api s signer owner recipient amount s2 resp hreach heq ih =>
    obtain ⟨o, r, x, w, u, hp⟩ :=
      try_transfer_from_ok_inv api s signer owner recipient amount s2 resp heq
    exact inv_perform_transfer (inv_write_allowance o signer w ih) hp

/-- The duplicate-address, wrapping init of the C1 counterexample: the same
account listed twice with amounts `2 ^ 127` and `2 ^ 127 + 5`, so the
second write overwrites the first while the running total wraps to `5`. -/
def c1Msg : InitMsg where
  name := strBytes "Test"
  symbol := [84, 83, 84]
  decimals := 6
  initial_balances :=
    [⟨"A", "170141183460469231731687303715884105728"⟩,
     ⟨"A", "170141183460469231731687303715884105733"⟩]

/-- The store produced by the counterexample init. -/
def c1Store : Store := (init okApi emptyStore c1Msg).1

/-- **C1** (counterexample): the claim asserts that in every state reachable
from a successful init the sum of stored balances equals the stored Total
Supply.  A successful init listing the same address twice — with amounts
whose running total also wraps past `2 ^ 128` — reaches a state whose
stored Total Supply is `5` while the stored balances sum to
`2 ^ 127 + 5`. -/
theorem conservation_counterexample :
    Reachable c1Store ∧
    read_u128 c1Store KEY_TOTAL_SUPPLY = .ok 5 ∧
    sumBalances c1Store = 2 ^ 127 + 5 ∧
    (2 : Nat) ^ 127 + 5 ≠ 5 :=
  ⟨Reachable.genesis okApi c1Msg c1Store Response.default rfl, rfl, rfl,
    by norm_num⟩

/-- **C1** (amended): in every state reachable from a successful init whose
initial balances canonicalize to pairwise-distinct addresses and whose
amounts sum below `2 ^ 128`, by any sequence of successful transfer,
approve and transfer-from operations, the stored Total Supply reads back as
exactly the sum of all stored balances.  (A duplicated initial address or a
wrapping initial total — both accepted by the unchecked init — break the
equality at genesis, as the counterexample shows.) -/
theorem conservation_of_supply (s : Store) (h : ReachableClean s) :
    read_u128 s KEY_TOTAL_SUPPLY = .ok (sumBalances s) :=
  (reachableClean_inv s h).ts

/-- The spec §8 genesis (`addr0000: 11, addr1111: 22, addr4321: 33`). -/
def cleanMsg : InitMsg where
  name := strBytes "Test"
  symbol := [84, 83, 84]
  decimals := 6
  initial_balances :=
    [⟨"addr0000", "11"⟩, ⟨"addr1111", "22"⟩, ⟨"addr4321", "33"⟩]

/-- The genesis store of the witness. -/
def cleanStore0 : Store := (init okApi emptyStore cleanMsg).1

/-- The witness store after one successful transfer on top of genesis. -/
def cleanStore1 : Store :=
  (try_transfer okApi cleanStore0 (strBytes "addr0000") "addr1111" "5").1

/-- Witness for the amended C1: the spec §8 genesis followed by a transfer
of 5 is clean-reachable, and its stored Total Supply equals its balance
sum. -/
theorem conservation_of_supply_witness :
    ReachableClean cleanStore1 ∧
    read_u128 cleanStore1 KEY_TOTAL_SUPPLY = .ok (sumBalances cleanStore1) := by
  have h0 : ReachableClean cleanStore0 :=
    ReachableClean.genesis okApi cleanMsg
      [strBytes "addr0000", strBytes "addr1111", strBytes "addr4321"]
      [11, 22, 33] cleanStore0 Response.default
      ⟨rfl, rfl, rfl, rfl, rfl, rfl, trivial⟩ (by decide) (by norm_num) rfl
  have h1 : ReachableClean cleanStore1 :=
    ReachableClean.transfer okApi cleanStore0 (strBytes "addr0000") "addr1111"
      "5" cleanStore1 ⟨[], some "transfer successful", none⟩ h0 rfl
  exact ⟨h1, conservation_of_supply cleanStore1 h1⟩

end Erc20
